import Mathlib

/-!
Verification of the physics/collision core of the 2d-math-utils library.

The definitions below are a shallow embedding of the TypeScript source:
`src/vector.ts`, `src/point.ts`, `src/physics.ts` (the object-based
`collide` / `separate` / `repel` / `fluid` / `boids` generation) and the
reference `PhysicalBody` class.  JavaScript numbers are modelled as real
numbers; division is Lean's total division, and a separate
`Option`-valued model (`collideC` etc.) tracks the divisions and square
roots actually performed, so that freedom from division-by-zero (the
float-level source of NaN here) is provable where claimed.
-/

namespace MathUtils

noncomputable section

/-! ## Definitions -/

/-- 2D vector `{x, y}` from `src/types.ts` (`Vector2d = Point`). -/
structure Vec where
  x : ℝ
  y : ℝ

/-- `vector.ts` `zero`. -/
def vzero : Vec := ⟨0, 0⟩

/-- `vector.ts` `add`. -/
def add (v1 v2 : Vec) : Vec := ⟨v1.x + v2.x, v1.y + v2.y⟩

/-- `vector.ts` `subtract`. -/
def sub (v1 v2 : Vec) : Vec := ⟨v1.x - v2.x, v1.y - v2.y⟩

/-- `vector.ts` `scale`. -/
def scale (v : Vec) (s : ℝ) : Vec := ⟨v.x * s, v.y * s⟩

/-- `vector.ts` `length`. -/
def vlength (v : Vec) : ℝ := Real.sqrt (v.x * v.x + v.y * v.y)

/-- `vector.ts` `normalize`: zero vector when the length is zero. -/
def normalize (v : Vec) : Vec :=
  if vlength v = 0 then vzero else scale v (1 / vlength v)

/-- `vector.ts` `dot`. -/
def dot (v1 v2 : Vec) : ℝ := v1.x * v2.x + v1.y * v2.y

/-- Negation helper (used to state force antisymmetry). -/
def vneg (v : Vec) : Vec := ⟨-v.x, -v.y⟩

/-- `point.ts` `distance`. -/
def distance (p1 p2 : Vec) : ℝ :=
  Real.sqrt ((p2.x - p1.x) * (p2.x - p1.x) + (p2.y - p1.y) * (p2.y - p1.y))

/-- `point.ts` `distanceSquared`. -/
def distanceSquared (p1 p2 : Vec) : ℝ :=
  (p2.x - p1.x) * (p2.x - p1.x) + (p2.y - p1.y) * (p2.y - p1.y)

/-- `physics.ts` `CollisionObject`: position, velocity, mass, radius. -/
structure CollisionObject where
  position : Vec
  velocity : Vec
  mass : ℝ
  radius : ℝ

/-- The `resolveOverlapMode` parameter of `collide`. -/
inductive OverlapMode where
  | separate
  | repel
  | none

/-- `physics.ts` `separate`: positional overlap resolution, distributing the
correction inversely to mass; fallback direction `(1,0)` when the two
positions coincide.  The TS function mutates `obj1.position` and
`obj2.position`; here the updated pair is returned. -/
def separate (o1 o2 : CollisionObject) : CollisionObject × CollisionObject :=
  let normal := sub o2.position o1.position
  let dist := distance o1.position o2.position
  let overlap := o1.radius + o2.radius - dist
  if overlap ≤ 0 then (o1, o2)
  else
    let direction := if dist = 0 then (⟨1, 0⟩ : Vec) else scale normal (1 / dist)
    let totalMass := o1.mass + o2.mass
    let correction := scale direction overlap
    let o1Correction := scale correction (o2.mass / totalMass)
    let o2Correction := scale correction (o1.mass / totalMass)
    ({ o1 with position := sub o1.position o1Correction },
     { o2 with position := add o2.position o2Correction })

/-- `physics.ts` `repel` (object version): velocity-domain push proportional to
overlap, split by mass ratio; no-op when not overlapping or at zero distance.
The TS function mutates the velocities; here the updated pair is returned. -/
def repel (o1 o2 : CollisionObject) (strength : ℝ) : CollisionObject × CollisionObject :=
  let normal := sub o2.position o1.position
  let dist := distance o1.position o2.position
  let overlap := o1.radius + o2.radius - dist
  if overlap ≤ 0 ∨ dist = 0 then (o1, o2)
  else
    let direction := scale normal (1 / dist)
    let repulsionForce := overlap * strength
    let totalMass := o1.mass + o2.mass
    let o1Strength := (o2.mass / totalMass) * repulsionForce
    let o2Strength := (o1.mass / totalMass) * repulsionForce
    ({ o1 with velocity := sub o1.velocity (scale direction o1Strength) },
     { o2 with velocity := add o2.velocity (scale direction o2Strength) })

/-- `physics.ts` `collide` (object version): impulse applied only when the
bodies are approaching (`velocityAlongNormal <= 0`), then overlap resolution
according to the mode ( `repel` is called with its default strength 1 ). -/
def collide (o1 o2 : CollisionObject) (restitution : ℝ) (mode : OverlapMode) :
    CollisionObject × CollisionObject :=
  let normal := normalize (sub o2.position o1.position)
  let relativeVelocity := sub o2.velocity o1.velocity
  let velocityAlongNormal := dot relativeVelocity normal
  let p :=
    if velocityAlongNormal ≤ 0 then
      let impulseMagnitude := -(1 + restitution) * velocityAlongNormal
      let impulse := impulseMagnitude / (1 / o1.mass + 1 / o2.mass)
      let impulseVector := scale normal impulse
      ({ o1 with velocity := sub o1.velocity (scale impulseVector (1 / o1.mass)) },
       { o2 with velocity := add o2.velocity (scale impulseVector (1 / o2.mass)) })
    else (o1, o2)
  match mode with
  | OverlapMode.separate => separate p.1 p.2
  | OverlapMode.repel => repel p.1 p.2 1
  | OverlapMode.none => p

/-- Checked division: `Option.none` when the denominator is zero.  Over IEEE
floats a zero denominator is what introduces Infinity/NaN in this code, so
`Option.some`-ness of the checked computation below certifies the absence of
NaN for finite inputs. -/
def cdiv (a b : ℝ) : Option ℝ :=
  if b = 0 then Option.none else Option.some (a / b)

/-- `separate`, with every division checked.  (The square roots inside
`distance` are applied to sums of squares, hence never NaN.) -/
def separateC (o1 o2 : CollisionObject) : Option (CollisionObject × CollisionObject) :=
  let dist := distance o1.position o2.position
  let overlap := o1.radius + o2.radius - dist
  if overlap ≤ 0 then Option.some (o1, o2)
  else
    (if dist = 0 then Option.some (⟨1, 0⟩ : Vec)
     else (cdiv 1 dist).map (fun r => scale (sub o2.position o1.position) r)).bind
      (fun direction =>
        (cdiv o2.mass (o1.mass + o2.mass)).bind (fun r1 =>
          (cdiv o1.mass (o1.mass + o2.mass)).bind (fun r2 =>
            let correction := scale direction overlap
            Option.some
              ({ o1 with position := sub o1.position (scale correction r1) },
               { o2 with position := add o2.position (scale correction r2) }))))

/-- `repel`, with every division checked. -/
def repelC (o1 o2 : CollisionObject) (strength : ℝ) :
    Option (CollisionObject × CollisionObject) :=
  let dist := distance o1.position o2.position
  let overlap := o1.radius + o2.radius - dist
  if overlap ≤ 0 ∨ dist = 0 then Option.some (o1, o2)
  else
    (cdiv 1 dist).bind (fun invd =>
      let direction := scale (sub o2.position o1.position) invd
      (cdiv o2.mass (o1.mass + o2.mass)).bind (fun a =>
        (cdiv o1.mass (o1.mass + o2.mass)).bind (fun b =>
          Option.some
            ({ o1 with velocity := sub o1.velocity (scale direction (a * (overlap * strength))) },
             { o2 with velocity := add o2.velocity (scale direction (b * (overlap * strength)))}))))

/-- `collide`, with every division checked (`normalize` guards its own zero
case in the source, so it stays total). -/
def collideC (o1 o2 : CollisionObject) (restitution : ℝ) (mode : OverlapMode) :
    Option (CollisionObject × CollisionObject) :=
  let normal := normalize (sub o2.position o1.position)
  let velocityAlongNormal := dot (sub o2.velocity o1.velocity) normal
  (if velocityAlongNormal ≤ 0 then
      (cdiv 1 o1.mass).bind (fun inv1 =>
        (cdiv 1 o2.mass).bind (fun inv2 =>
          (cdiv (-(1 + restitution) * velocityAlongNormal) (inv1 + inv2)).bind (fun impulse =>
            let impulseVector := scale normal impulse
            Option.some
              ({ o1 with velocity := sub o1.velocity (scale impulseVector inv1) },
               { o2 with velocity := add o2.velocity (scale impulseVector inv2) }))))
    else Option.some (o1, o2)).bind
    (fun p =>
      match mode with
      | OverlapMode.separate => separateC p.1 p.2
      | OverlapMode.repel => repelC p.1 p.2 1
      | OverlapMode.none => Option.some p)

/-- The reference `PhysicalBody` (the class in `PhysicalBody.ts` carrying
`collisionOverlapResolution`): the state fields read or written by
`update`. -/
structure PhysicalBody where
  position : Vec
  velocity : Vec
  acceleration : Vec
  mass : ℝ
  radius : ℝ
  elasticity : ℝ
  angle : ℝ
  angularVelocity : ℝ
  angularDrag : ℝ
  friction : ℝ
  gravity : Vec
  drag : ℝ

/-- `PhysicalBody.update(deltaTime)` of the reference implementation:
gravity is added to the acceleration (`applyForce` with scaler 1), friction
and drag each damp the velocity when positive, acceleration integrates into
velocity and velocity into position (`applyForce` with scaler `deltaTime`),
the angle advances by `angularVelocity * deltaTime`, and at the end the
accumulators are reset: `acceleration = zero`, `angularVelocity = 0`.
(The angular-drag branch computes `applyTorque(av, av, 1/mass)`, but that
store is dead: the reset below overwrites it, as in the source.) -/
def PhysicalBody.update (b : PhysicalBody) (deltaTime : ℝ) : PhysicalBody :=
  let acc := add b.acceleration (scale b.gravity 1)
  let vel := if 0 < b.friction then scale b.velocity (1 - b.friction) else b.velocity
  let vel := if 0 < b.drag then scale vel (1 - b.drag) else vel
  let vel := add vel (scale acc deltaTime)
  let pos := add b.position (scale vel deltaTime)
  let ang := b.angle + b.angularVelocity * deltaTime
  let _av := if 0 < b.angularDrag
    then b.angularVelocity + b.angularVelocity * (1 / b.mass)
    else b.angularVelocity
  { b with position := pos, velocity := vel, acceleration := vzero,
           angle := ang, angularVelocity := 0 }

instance instAddCommMonoidVec : AddCommMonoid Vec where
  add := add
  zero := vzero
  add_assoc := by
    intro a b c
    show add (add a b) c = add a (add b c)
    simp only [add, Vec.mk.injEq]
    constructor <;> ring
  zero_add := by
    intro a
    show add vzero a = a
    cases a
    simp [add, vzero]
  add_zero := by
    intro a
    show add a vzero = a
    cases a
    simp [add, vzero]
  add_comm := by
    intro a b
    show add a b = add b a
    simp only [add, Vec.mk.injEq]
    constructor <;> ring
  nsmul := fun n v => ⟨n * v.x, n * v.y⟩
  nsmul_zero := by
    intro v
    show Vec.mk _ _ = vzero
    simp [vzero]
  nsmul_succ := by
    intro n v
    show Vec.mk _ _ = add ⟨_, _⟩ v
    simp only [add, Vec.mk.injEq]
    push_cast
    exact ⟨by ring, by ring⟩

/-- `physics.ts` `FluidParticle`. -/
structure FluidParticle where
  position : Vec
  velocity : Vec
  density : ℝ
  pressure : ℝ
  mass : ℝ

/-- The options bag of `fluid`, with the source defaults. -/
structure FluidConfig where
  smoothingRadius : ℝ := 30
  stiffness : ℝ := 50
  restDensity : ℝ := 1
  viscosity : ℝ := 0.1

/-- Grid key `(floor(x/gridSize), floor(y/gridSize))` (`getGridKey`, with
`gridSize = smoothingRadius`). -/
def cellOf (s : ℝ) (v : Vec) : ℤ × ℤ := (⌊v.x / s⌋, ⌊v.y / s⌋)

/-- The 3×3 neighborhood offsets, in the `dx`-outer/`dy`-inner order of the
source loops. -/
def gridOffsets : List (ℤ × ℤ) :=
  [(-1, -1), (-1, 0), (-1, 1), (0, -1), (0, 0), (0, 1), (1, -1), (1, 0), (1, 1)]

/-- Density of `p` over the particle set (first pass of `fluid`): the grid
bucket for a key holds exactly the particles with that key, in array order,
so traversing a bucket is modelled by guarding each particle with its key;
a particle within the smoothing radius contributes
`mass * (1 - dist/smoothingRadius)`. -/
def densityAt (ps : List FluidParticle) (s : ℝ) (p : FluidParticle) : ℝ :=
  (gridOffsets.map (fun o =>
    (ps.map (fun q =>
      if cellOf s q.position = ((cellOf s p.position).1 + o.1, (cellOf s p.position).2 + o.2)
      then
        (if Real.sqrt (distanceSquared p.position q.position) < s
         then q.mass * (1 - Real.sqrt (distanceSquared p.position q.position) / s)
         else 0)
      else 0)).sum)).sum

/-- First pass of `fluid`: store `density` and `pressure` on every particle.
The source mutates the array in place, but this pass reads only positions
and masses — which it never writes — so the in-place loop equals this map. -/
def fluidDensities (ps : List FluidParticle) (cfg : FluidConfig) : List FluidParticle :=
  ps.map (fun p =>
    { p with
        density := densityAt ps cfg.smoothingRadius p
        pressure := cfg.stiffness * (densityAt ps cfg.smoothingRadius p - cfg.restDensity) })

/-- The pressure-plus-viscosity force of `q` on `p` (second pass of `fluid`),
scaled by the product of the masses. -/
def pairForce (cfg : FluidConfig) (p q : FluidParticle) : Vec :=
  let dist := distance p.position q.position
  let dir := normalize (sub q.position p.position)
  let pressureForce := scale dir
    (-(p.pressure + q.pressure) * (1 - dist / cfg.smoothingRadius)
      / (2 * p.density * q.density))
  let viscosityForce := scale (sub q.velocity p.velocity)
    (cfg.viscosity * (1 - dist / cfg.smoothingRadius) / (p.density * q.density))
  scale (add pressureForce viscosityForce) (p.mass * q.mass)

/-- Force on the particle at index `i` (second pass of `fluid`): sum over the
3×3 cell neighborhood of `pairForce` contributions, skipping the particle
itself (`p === neighbor` in the source; array slots hold distinct objects,
so reference equality is index equality). -/
def forceAt (ps : List FluidParticle) (cfg : FluidConfig) (i : ℕ) (p : FluidParticle) : Vec :=
  (gridOffsets.map (fun o =>
    (ps.enum.map (fun jq =>
      if cellOf cfg.smoothingRadius jq.2.position
          = ((cellOf cfg.smoothingRadius p.position).1 + o.1,
             (cellOf cfg.smoothingRadius p.position).2 + o.2)
      then
        (if jq.1 = i then 0
         else if distance p.position jq.2.position < cfg.smoothingRadius
           then pairForce cfg p jq.2 else 0)
      else 0)).sum)).sum

/-- `physics.ts` `fluid`: the density/pressure pass followed by the force
pass over the updated particles (positions are unchanged by the first pass,
so the grid is the same in both passes); returns the particle list as
mutated together with the parallel force array. -/
def fluid (ps : List FluidParticle) (cfg : FluidConfig) :
    List FluidParticle × List Vec :=
  let ps2 := fluidDensities ps cfg
  (ps2, ps2.enum.map (fun ip => forceAt ps2 cfg ip.1 ip.2))

/-- `physics.ts` `Boid` (the optional `mass` field is never read by the
algorithm). -/
structure Boid where
  position : Vec
  velocity : Vec
  mass : Option ℝ := Option.none

/-- `physics.ts` `BoidRules`, with the destructuring defaults of `boids`. -/
structure BoidRules where
  separationRadius : ℝ := 25
  alignmentRadius : ℝ := 50
  cohesionRadius : ℝ := 50
  separationWeight : ℝ := 1
  alignmentWeight : ℝ := 1
  cohesionWeight : ℝ := 1
  maxSpeed : ℝ := 10

/-- One iteration of the inner neighbor loop of `boids`, for the boid at
index `i`: the accumulator is `(separation, alignment, cohesion,
neighborCount)`.  Separation accumulates within `separationRadius`;
alignment, cohesion and the neighbor count within `alignmentRadius`. -/
def boidsStep (rules : BoidRules) (i : ℕ) (boid : Boid)
    (acc : Vec × Vec × Vec × ℕ) (jo : ℕ × Boid) : Vec × Vec × Vec × ℕ :=
  if jo.1 = i then acc
  else
    let dist := Real.sqrt (distanceSquared boid.position jo.2.position)
    let acc1 :=
      if dist < rules.separationRadius then
        (add acc.1 (scale (normalize (sub boid.position jo.2.position))
          (1 / max dist 0.1)), acc.2.1, acc.2.2.1, acc.2.2.2)
      else acc
    if dist < rules.alignmentRadius then
      (acc1.1, add acc1.2.1 jo.2.velocity, add acc1.2.2.1 jo.2.position, acc1.2.2.2 + 1)
    else acc1

/-- The combination step of `boids`: when at least one alignment-radius
neighbor was seen, normalize/average the three contributions and combine
them with the weights (otherwise the force stays zero), then clamp the
result to `maxSpeed`. -/
def boidsCombine (rules : BoidRules) (boid : Boid) (st : Vec × Vec × Vec × ℕ) : Vec :=
  let separation := st.1
  let alignment := st.2.1
  let cohesion := st.2.2.1
  let neighborCount := st.2.2.2
  let force :=
    if 0 < neighborCount then
      let separation :=
        if separation.x ≠ 0 ∨ separation.y ≠ 0 then normalize separation else separation
      let alignment := scale alignment (1 / (neighborCount : ℝ))
      let cohesion := scale cohesion (1 / (neighborCount : ℝ))
      let cohesion := sub cohesion boid.position
      let alignment :=
        if alignment.x ≠ 0 ∨ alignment.y ≠ 0 then normalize alignment else alignment
      let cohesion :=
        if cohesion.x ≠ 0 ∨ cohesion.y ≠ 0 then normalize cohesion else cohesion
      add (add (scale separation rules.separationWeight)
        (scale alignment rules.alignmentWeight)) (scale cohesion rules.cohesionWeight)
    else vzero
  if 0 < rules.maxSpeed then
    let speed := Real.sqrt (force.x * force.x + force.y * force.y)
    if rules.maxSpeed < speed then scale force (rules.maxSpeed / speed) else force
  else force

/-- `physics.ts` `boids`: for every boid, fold the neighbor loop over the
whole flock and combine the accumulated contributions. -/
def boidsForce (bs : List Boid) (rules : BoidRules) : List Vec :=
  bs.enum.map (fun ib =>
    boidsCombine rules ib.2 (bs.enum.foldl (boidsStep rules ib.1 ib.2) (vzero, vzero, vzero, 0)))

/-! ## Theorems -/

theorem Vec.ext_iff2 (a b : Vec) : a = b ↔ a.x = b.x ∧ a.y = b.y := by
  constructor
  · intro h; simp [h]
  · intro h; cases a; cases b; simp_all

theorem vlength_nonneg (v : Vec) : 0 ≤ vlength v := Real.sqrt_nonneg _

theorem vlength_mul_self (v : Vec) : vlength v * vlength v = v.x * v.x + v.y * v.y := by
  unfold vlength
  exact Real.mul_self_sqrt (by nlinarith [mul_self_nonneg v.x, mul_self_nonneg v.y])

theorem vlength_eq_zero_iff (v : Vec) : vlength v = 0 ↔ v = vzero := by
  unfold vlength
  rw [Real.sqrt_eq_zero']
  constructor
  · intro h
    have hx : v.x = 0 := by nlinarith [mul_self_nonneg v.x, mul_self_nonneg v.y]
    have hy : v.y = 0 := by nlinarith [mul_self_nonneg v.x, mul_self_nonneg v.y]
    cases v; simp_all [vzero]
  · intro h; rw [h]; simp [vzero]

theorem vlength_pos_of_ne (v : Vec) (h : v ≠ vzero) : 0 < vlength v := by
  rcases lt_or_eq_of_le (vlength_nonneg v) with h1 | h1
  · exact h1
  · exact absurd ((vlength_eq_zero_iff v).mp h1.symm) h

theorem distance_eq_vlength_sub (p1 p2 : Vec) : distance p1 p2 = vlength (sub p2 p1) := by
  unfold distance vlength sub
  norm_num

theorem distance_self (p : Vec) : distance p p = 0 := by
  unfold distance
  simp

theorem distance_nonneg (p1 p2 : Vec) : 0 ≤ distance p1 p2 := Real.sqrt_nonneg _

theorem separate_velocity (o1 o2 : CollisionObject) :
    (separate o1 o2).1.velocity = o1.velocity ∧ (separate o1 o2).2.velocity = o2.velocity := by
  simp only [separate]
  split <;> simp

theorem separate_mass (o1 o2 : CollisionObject) :
    (separate o1 o2).1.mass = o1.mass ∧ (separate o1 o2).2.mass = o2.mass := by
  simp only [separate]
  split <;> simp

theorem collide_velocities_of_approaching (o1 o2 : CollisionObject) (e : ℝ)
    (h : dot (sub o2.velocity o1.velocity) (normalize (sub o2.position o1.position)) ≤ 0) :
    (collide o1 o2 e OverlapMode.separate).1.velocity
      = sub o1.velocity (scale (scale (normalize (sub o2.position o1.position))
          (-(1 + e) * dot (sub o2.velocity o1.velocity) (normalize (sub o2.position o1.position))
            / (1 / o1.mass + 1 / o2.mass))) (1 / o1.mass)) ∧
    (collide o1 o2 e OverlapMode.separate).2.velocity
      = add o2.velocity (scale (scale (normalize (sub o2.position o1.position))
          (-(1 + e) * dot (sub o2.velocity o1.velocity) (normalize (sub o2.position o1.position))
            / (1 / o1.mass + 1 / o2.mass))) (1 / o2.mass)) := by
  simp only [collide]
  rw [if_pos h]
  exact ⟨(separate_velocity _ _).1, (separate_velocity _ _).2⟩

/-- C1: for two bodies of equal positive mass colliding head-on
(both velocities collinear with the line of centers) and approaching, with
restitution 1, `collide` exactly swaps the two velocities. -/
theorem collide_equal_mass_headon_swaps (o1 o2 : CollisionObject) (s t : ℝ)
    (hmass : o2.mass = o1.mass) (hm : 0 < o1.mass)
    (hne : sub o2.position o1.position ≠ vzero)
    (hv1 : o1.velocity = scale (sub o2.position o1.position) s)
    (hv2 : o2.velocity = scale (sub o2.position o1.position) t)
    (happroach : t ≤ s) :
    (collide o1 o2 1 OverlapMode.separate).1.velocity = o2.velocity ∧
    (collide o1 o2 1 OverlapMode.separate).2.velocity = o1.velocity := by
  set d := sub o2.position o1.position with hd
  have hlen : 0 < vlength d := vlength_pos_of_ne _ hne
  have hlen0 : vlength d ≠ 0 := ne_of_gt hlen
  have hL := vlength_mul_self d
  have hm0 : o1.mass ≠ 0 := ne_of_gt hm
  have hnorm : normalize d = scale d (1 / vlength d) := by
    unfold normalize
    rw [if_neg hlen0]
  have hvn : dot (sub o2.velocity o1.velocity) (normalize d)
      = (t - s) * vlength d := by
    rw [hv1, hv2, hnorm]
    simp only [dot, sub, scale]
    field_simp
    linear_combination (s - t) * hL
  have happ : dot (sub o2.velocity o1.velocity) (normalize d) ≤ 0 := by
    rw [hvn]
    have h1 : t - s ≤ 0 := sub_nonpos.mpr happroach
    nlinarith
  obtain ⟨h1, h2⟩ := collide_velocities_of_approaching o1 o2 1 (by exact happ)
  rw [← hd] at h1 h2
  rw [hvn, hnorm] at h1 h2
  constructor
  · rw [h1, hv1, hv2, hmass]
    simp only [sub, scale, Vec.ext_iff2]
    constructor <;> (field_simp; ring)
  · rw [h2, hv1, hv2, hmass]
    simp only [add, sub, scale, Vec.ext_iff2]
    constructor <;> (field_simp; ring)

/-- C1 witness: bodyA at (0,0) with velocity (5,0), bodyB at (10,0) with
velocity (-5,0), both mass 1, restitution 1: the velocities are swapped. -/
theorem collide_equal_mass_headon_swaps_witness :
    (collide ⟨⟨0, 0⟩, ⟨5, 0⟩, 1, 1⟩ ⟨⟨10, 0⟩, ⟨-5, 0⟩, 1, 1⟩ 1 OverlapMode.separate).1.velocity
      = (⟨-5, 0⟩ : Vec) ∧
    (collide ⟨⟨0, 0⟩, ⟨5, 0⟩, 1, 1⟩ ⟨⟨10, 0⟩, ⟨-5, 0⟩, 1, 1⟩ 1 OverlapMode.separate).2.velocity
      = (⟨5, 0⟩ : Vec) :=
  collide_equal_mass_headon_swaps ⟨⟨0, 0⟩, ⟨5, 0⟩, 1, 1⟩ ⟨⟨10, 0⟩, ⟨-5, 0⟩, 1, 1⟩
    (1 / 2) (-(1 / 2)) rfl (by norm_num)
    (by simp only [sub, vzero, Vec.ext_iff2]; norm_num)
    (by simp only [sub, scale, Vec.ext_iff2]; norm_num)
    (by simp only [sub, scale, Vec.ext_iff2]; norm_num)
    (by norm_num)

theorem repel_of_no_overlap (o1 o2 : CollisionObject) (strength : ℝ)
    (h : o1.radius + o2.radius - distance o1.position o2.position ≤ 0
      ∨ distance o1.position o2.position = 0) :
    repel o1 o2 strength = (o1, o2) := by
  simp only [repel]
  rw [if_pos h]

/-- C2 (amended): when the bodies are separating (positive relative velocity
along the collision normal), `collide` leaves both velocities unchanged,
provided the overlap mode is not `repel` (or there is no overlap). -/
theorem collide_separating_preserves_velocities (o1 o2 : CollisionObject) (e : ℝ)
    (mode : OverlapMode)
    (hvn : 0 < dot (sub o2.velocity o1.velocity) (normalize (sub o2.position o1.position)))
    (hmode : mode ≠ OverlapMode.repel
      ∨ o1.radius + o2.radius - distance o1.position o2.position ≤ 0) :
    (collide o1 o2 e mode).1.velocity = o1.velocity ∧
    (collide o1 o2 e mode).2.velocity = o2.velocity := by
  simp only [collide]
  rw [if_neg (not_le.mpr hvn)]
  cases mode with
  | separate => exact ⟨(separate_velocity o1 o2).1, (separate_velocity o1 o2).2⟩
  | repel =>
      rcases hmode with h | h
      · exact absurd rfl h
      · rw [repel_of_no_overlap o1 o2 1 (Or.inl h)]
        exact ⟨rfl, rfl⟩
  | none => exact ⟨rfl, rfl⟩

/-- C2 witness: a separating, non-overlapping pair in the default `separate`
mode keeps both velocities. -/
theorem collide_separating_preserves_velocities_witness :
    0 < dot (sub (⟨⟨1, 0⟩, ⟨1, 0⟩, 1, 0⟩ : CollisionObject).velocity
          (⟨⟨0, 0⟩, ⟨0, 0⟩, 1, 0⟩ : CollisionObject).velocity)
        (normalize (sub (⟨⟨1, 0⟩, ⟨1, 0⟩, 1, 0⟩ : CollisionObject).position
          (⟨⟨0, 0⟩, ⟨0, 0⟩, 1, 0⟩ : CollisionObject).position)) ∧
    (collide ⟨⟨0, 0⟩, ⟨0, 0⟩, 1, 0⟩ ⟨⟨1, 0⟩, ⟨1, 0⟩, 1, 0⟩ (9 / 10)
        OverlapMode.separate).1.velocity = (⟨0, 0⟩ : Vec) ∧
    (collide ⟨⟨0, 0⟩, ⟨0, 0⟩, 1, 0⟩ ⟨⟨1, 0⟩, ⟨1, 0⟩, 1, 0⟩ (9 / 10)
        OverlapMode.separate).2.velocity = (⟨1, 0⟩ : Vec) := by
  have hvn : 0 < dot (sub (⟨⟨1, 0⟩, ⟨1, 0⟩, 1, 0⟩ : CollisionObject).velocity
      (⟨⟨0, 0⟩, ⟨0, 0⟩, 1, 0⟩ : CollisionObject).velocity)
      (normalize (sub (⟨⟨1, 0⟩, ⟨1, 0⟩, 1, 0⟩ : CollisionObject).position
        (⟨⟨0, 0⟩, ⟨0, 0⟩, 1, 0⟩ : CollisionObject).position)) := by
    simp only [sub, normalize, vlength, scale, dot, vzero]
    norm_num [Real.sqrt_one]
  exact ⟨hvn, collide_separating_preserves_velocities _ _ (9 / 10) OverlapMode.separate hvn
    (Or.inl (by intro h; exact OverlapMode.noConfusion h))⟩

/-- C2 counterexample: the same separating pair, but overlapping and in
`repel` mode: `collide` changes bodyA's velocity even though the bodies are
separating. -/
theorem collide_separating_repel_changes_velocity :
    0 < dot (sub (⟨⟨1, 0⟩, ⟨1, 0⟩, 1, 1⟩ : CollisionObject).velocity
          (⟨⟨0, 0⟩, ⟨0, 0⟩, 1, 1⟩ : CollisionObject).velocity)
        (normalize (sub (⟨⟨1, 0⟩, ⟨1, 0⟩, 1, 1⟩ : CollisionObject).position
          (⟨⟨0, 0⟩, ⟨0, 0⟩, 1, 1⟩ : CollisionObject).position)) ∧
    (collide ⟨⟨0, 0⟩, ⟨0, 0⟩, 1, 1⟩ ⟨⟨1, 0⟩, ⟨1, 0⟩, 1, 1⟩ (9 / 10)
        OverlapMode.repel).1.velocity
      ≠ (⟨⟨0, 0⟩, ⟨0, 0⟩, 1, 1⟩ : CollisionObject).velocity := by
  constructor
  · simp only [sub, normalize, vlength, scale, dot, vzero]
    norm_num [Real.sqrt_one]
  · simp only [collide, repel, sub, normalize, vlength, scale, dot, add, vzero, distance]
    norm_num [Real.sqrt_one, Vec.ext_iff2]

theorem sub_eq_vzero_iff (a b : Vec) : sub a b = vzero ↔ a = b := by
  constructor
  · intro h
    have hx := congrArg Vec.x h
    have hy := congrArg Vec.y h
    simp only [sub, vzero] at hx hy
    cases a; cases b
    simp only at hx hy
    simp only [Vec.ext_iff2]
    constructor <;> linarith
  · intro h
    simp [h, sub, vzero]

theorem scale_scale (v : Vec) (a b : ℝ) : scale (scale v a) b = scale v (a * b) := by
  simp only [scale, Vec.ext_iff2]
  constructor <;> ring

/-- C3: in `separate` mode with positive penetration, bodyA moves by
`overlap * massB/(massA+massB)` against the collision normal and bodyB by
`overlap * massA/(massA+massB)` along it; `separate` is a no-op when
`overlap ≤ 0`. -/
theorem separate_mass_weighted (o1 o2 : CollisionObject)
    (hm1 : 0 < o1.mass) (hm2 : 0 < o2.mass)
    (hne : o1.position ≠ o2.position) :
    (0 < o1.radius + o2.radius - distance o1.position o2.position →
      (separate o1 o2).1.position
        = sub o1.position (scale (normalize (sub o2.position o1.position))
            ((o1.radius + o2.radius - distance o1.position o2.position)
              * o2.mass / (o1.mass + o2.mass))) ∧
      (separate o1 o2).2.position
        = add o2.position (scale (normalize (sub o2.position o1.position))
            ((o1.radius + o2.radius - distance o1.position o2.position)
              * o1.mass / (o1.mass + o2.mass)))) ∧
    (o1.radius + o2.radius - distance o1.position o2.position ≤ 0 →
      separate o1 o2 = (o1, o2)) := by
  have hsub : sub o2.position o1.position ≠ vzero := by
    intro h
    exact hne ((sub_eq_vzero_iff o2.position o1.position).mp h).symm
  have hlen : 0 < vlength (sub o2.position o1.position) := vlength_pos_of_ne _ hsub
  have hdist : distance o1.position o2.position = vlength (sub o2.position o1.position) :=
    distance_eq_vlength_sub o1.position o2.position
  have hdist0 : distance o1.position o2.position ≠ 0 := by
    rw [hdist]; exact ne_of_gt hlen
  have hnorm : normalize (sub o2.position o1.position)
      = scale (sub o2.position o1.position) (1 / vlength (sub o2.position o1.position)) := by
    unfold normalize
    rw [if_neg (ne_of_gt hlen)]
  constructor
  · intro hoverlap
    simp only [separate]
    rw [if_neg (not_le.mpr hoverlap), if_neg hdist0]
    rw [hnorm, hdist]
    refine ⟨?_, ?_⟩
    · show sub o1.position _ = sub o1.position _
      rw [scale_scale, scale_scale, scale_scale]
      congr 1
      ring
    · show add o2.position _ = add o2.position _
      rw [scale_scale, scale_scale, scale_scale]
      congr 1
      ring
  · intro hoverlap
    simp only [separate]
    rw [if_pos hoverlap]

/-- C3 witness: mass 1 and mass 10 bodies, radii 10, 10 units apart
(overlap 10): the light body is displaced 100/11 and the heavy one 10/11 —
a 10:1 ratio. -/
theorem separate_mass_weighted_witness :
    (separate ⟨⟨0, 0⟩, ⟨0, 0⟩, 1, 10⟩ ⟨⟨10, 0⟩, ⟨0, 0⟩, 10, 10⟩).1.position
      = (⟨-(100 / 11), 0⟩ : Vec) ∧
    (separate ⟨⟨0, 0⟩, ⟨0, 0⟩, 1, 10⟩ ⟨⟨10, 0⟩, ⟨0, 0⟩, 10, 10⟩).2.position
      = (⟨120 / 11, 0⟩ : Vec) := by
  have hdist : distance (⟨0, 0⟩ : Vec) (⟨10, 0⟩ : Vec) = 10 := by
    unfold distance
    rw [show ((10 : ℝ) - 0) * (10 - 0) + (0 - 0) * (0 - 0) = 10 ^ 2 by norm_num]
    exact Real.sqrt_sq (by norm_num)
  have hnorm : normalize (sub (⟨10, 0⟩ : Vec) (⟨0, 0⟩ : Vec)) = (⟨1, 0⟩ : Vec) := by
    unfold normalize vlength sub
    rw [show ((10 : ℝ) - 0) * (10 - 0) + (0 - 0) * (0 - 0) = 10 ^ 2 by norm_num,
      Real.sqrt_sq (by norm_num : (0 : ℝ) ≤ 10)]
    norm_num [scale, Vec.ext_iff2]
  have h := (separate_mass_weighted ⟨⟨0, 0⟩, ⟨0, 0⟩, 1, 10⟩ ⟨⟨10, 0⟩, ⟨0, 0⟩, 10, 10⟩
    (by norm_num) (by norm_num)
    (by simp only [Vec.ext_iff2]; norm_num)).1
  simp only [hdist, hnorm] at h
  obtain ⟨h1, h2⟩ := h (by norm_num)
  refine ⟨?_, ?_⟩
  · rw [h1]
    simp only [sub, scale, Vec.ext_iff2]
    norm_num
  · rw [h2]
    simp only [add, scale, Vec.ext_iff2]
    norm_num

theorem scale_vzero_left (c : ℝ) : scale vzero c = vzero := by
  simp [scale, vzero]

theorem sub_vzero (v : Vec) : sub v vzero = v := by
  cases v; simp [sub, vzero]

theorem add_vzero (v : Vec) : add v vzero = v := by
  cases v; simp [add, vzero]

theorem normalize_vzero : normalize vzero = vzero := by
  simp [normalize, vlength, vzero]

theorem dot_vzero_right (v : Vec) : dot v vzero = 0 := by
  simp [dot, vzero]

/-- C4 counterexample: at coincident positions the collision normal computed
by `collide` is the zero vector — it has length 0, so it is not a fallback
direction such as `(1,0)`. -/
theorem collide_coincident_normal_is_zero :
    normalize (sub (⟨⟨3, 4⟩, ⟨0, 0⟩, 1, 1⟩ : CollisionObject).position
        (⟨⟨3, 4⟩, ⟨1, 2⟩, 1, 1⟩ : CollisionObject).position) = vzero ∧
    vlength (normalize (sub (⟨⟨3, 4⟩, ⟨0, 0⟩, 1, 1⟩ : CollisionObject).position
        (⟨⟨3, 4⟩, ⟨1, 2⟩, 1, 1⟩ : CollisionObject).position)) = 0 ∧
    normalize (sub (⟨⟨3, 4⟩, ⟨0, 0⟩, 1, 1⟩ : CollisionObject).position
        (⟨⟨3, 4⟩, ⟨1, 2⟩, 1, 1⟩ : CollisionObject).position) ≠ (⟨1, 0⟩ : Vec) := by
  have hsub : sub (⟨⟨3, 4⟩, ⟨0, 0⟩, 1, 1⟩ : CollisionObject).position
      (⟨⟨3, 4⟩, ⟨1, 2⟩, 1, 1⟩ : CollisionObject).position = vzero := by
    simp [sub, vzero, Vec.ext_iff2]
  rw [hsub, normalize_vzero]
  refine ⟨rfl, ?_, ?_⟩
  · simp [vlength, vzero]
  · simp only [vzero, Vec.ext_iff2]
    norm_num

/-- C4 (amended): at coincident positions the impulse normal is the zero
vector, the impulse leaves both velocities unchanged, and the whole checked
computation (every division checked against a zero denominator, covering
`separate`'s `(1,0)` fallback path) succeeds — no NaN appears. -/
theorem collideC_coincident_no_nan (o1 o2 : CollisionObject) (e : ℝ) (mode : OverlapMode)
    (hpos : o1.position = o2.position) (hm1 : 0 < o1.mass) (hm2 : 0 < o2.mass) :
    (collideC o1 o2 e mode).map (fun r => (r.1.velocity, r.2.velocity))
      = Option.some (o1.velocity, o2.velocity) ∧
    normalize (sub o2.position o1.position) = vzero := by
  have hsub : sub o2.position o1.position = vzero := (sub_eq_vzero_iff _ _).mpr hpos.symm
  have hnorm : normalize (sub o2.position o1.position) = vzero := by
    rw [hsub]; exact normalize_vzero
  have hm10 : o1.mass ≠ 0 := ne_of_gt hm1
  have hm20 : o2.mass ≠ 0 := ne_of_gt hm2
  have hinv : 1 / o1.mass + 1 / o2.mass ≠ 0 := by positivity
  have hM : o1.mass + o2.mass ≠ 0 := by positivity
  have hdist : distance o1.position o2.position = 0 := by
    rw [hpos]; exact distance_self _
  refine ⟨?_, hnorm⟩
  simp only [collideC, hsub, normalize_vzero, dot_vzero_right]
  rw [if_pos le_rfl]
  simp only [cdiv, if_neg hm10, if_neg hm20, if_neg hinv, Option.bind_eq_bind,
    Option.some_bind, scale_vzero_left, sub_vzero, add_vzero]
  cases mode with
  | separate =>
      simp only [separateC, hdist]
      by_cases hov : o1.radius + o2.radius - 0 ≤ 0
      · rw [if_pos hov]
        rfl
      · rw [if_neg hov]
        simp only [if_true, cdiv, if_neg hM, Option.some_bind]
        rfl
  | repel =>
      simp only [repelC, hdist]
      rw [if_pos (Or.inr trivial)]
      rfl
  | none =>
      rfl

/-- C4 witness: two mass-1 bodies at the same position, default restitution
0.9 and `separate` mode: the checked collision succeeds with unchanged
velocities. -/
theorem collideC_coincident_no_nan_witness :
    (collideC ⟨⟨3, 4⟩, ⟨1, 2⟩, 1, 1⟩ ⟨⟨3, 4⟩, ⟨0, 0⟩, 1, 1⟩ (9 / 10)
        OverlapMode.separate).map (fun r => (r.1.velocity, r.2.velocity))
      = Option.some ((⟨1, 2⟩ : Vec), (⟨0, 0⟩ : Vec)) ∧
    normalize (sub (⟨⟨3, 4⟩, ⟨0, 0⟩, 1, 1⟩ : CollisionObject).position
      (⟨⟨3, 4⟩, ⟨1, 2⟩, 1, 1⟩ : CollisionObject).position) = vzero :=
  collideC_coincident_no_nan ⟨⟨3, 4⟩, ⟨1, 2⟩, 1, 1⟩ ⟨⟨3, 4⟩, ⟨0, 0⟩, 1, 1⟩ (9 / 10)
    OverlapMode.separate rfl (by norm_num) (by norm_num)

/-- C6: after any `update(deltaTime)` the acceleration is exactly the zero
vector, whatever forces were accumulated before the step. -/
theorem update_resets_acceleration (b : PhysicalBody) (deltaTime : ℝ) :
    (b.update deltaTime).acceleration = vzero := by
  simp only [PhysicalBody.update]

/-- C8: after any `update(deltaTime)` the angular velocity is exactly 0 in
the reference behavior. -/
theorem update_resets_angular_velocity (b : PhysicalBody) (deltaTime : ℝ) :
    (b.update deltaTime).angularVelocity = 0 := by
  simp only [PhysicalBody.update]

theorem vzero_def : (0 : Vec) = vzero := rfl

theorem add_def (a b : Vec) : a + b = add a b := rfl

theorem sum_map_const_zero {α M : Type} [AddCommMonoid M] (l : List α) :
    (l.map (fun _ => (0 : M))).sum = 0 := by
  induction l with
  | nil => simp
  | cons a l ih => simp [ih]

theorem sum_map_swap {α β M : Type} [AddCommMonoid M] (l1 : List α) (l2 : List β)
    (f : α → β → M) :
    (l1.map (fun a => (l2.map (f a)).sum)).sum
      = (l2.map (fun b => (l1.map (fun a => f a b)).sum)).sum := by
  induction l1 with
  | nil => simp [sum_map_const_zero]
  | cons a l1 ih =>
      simp only [List.map_cons, List.sum_cons, ih, List.sum_map_add]

theorem sum_ite_eq_mem {M : Type} [AddCommMonoid M] (os : List (ℤ × ℤ)) (hn : os.Nodup)
    (Δ : ℤ × ℤ) (v : M) :
    (os.map (fun o => if Δ = o then v else 0)).sum = if Δ ∈ os then v else 0 := by
  induction os with
  | nil => simp
  | cons o os ih =>
      have hn2 : os.Nodup := (List.nodup_cons.mp hn).2
      by_cases h : Δ = o
      · subst h
        have hnotmem : Δ ∉ os := (List.nodup_cons.mp hn).1
        simp [ih hn2, hnotmem]
      · simp only [List.map_cons, List.sum_cons, if_neg h, ih hn2, List.mem_cons]
        simp [h]

theorem mem_gridOffsets_iff (d : ℤ × ℤ) :
    d ∈ gridOffsets ↔ (-1 ≤ d.1 ∧ d.1 ≤ 1 ∧ -1 ≤ d.2 ∧ d.2 ≤ 1) := by
  obtain ⟨a, b⟩ := d
  simp [gridOffsets, Prod.ext_iff]
  omega

theorem gridOffsets_nodup : gridOffsets.Nodup := by decide

theorem grid_sum_eq {α M : Type} [AddCommMonoid M] (l : List α) (key : α → ℤ × ℤ)
    (c : ℤ × ℤ) (f : α → M) :
    (gridOffsets.map (fun o =>
      (l.map (fun q => if key q = (c.1 + o.1, c.2 + o.2) then f q else 0)).sum)).sum
      = (l.map (fun q =>
          if ((key q).1 - c.1, (key q).2 - c.2) ∈ gridOffsets then f q else 0)).sum := by
  rw [sum_map_swap]
  refine congrArg List.sum (List.map_congr_left ?_)
  intro q _
  have h1 : ∀ o : ℤ × ℤ, (key q = (c.1 + o.1, c.2 + o.2))
      ↔ (((key q).1 - c.1, (key q).2 - c.2) = o) := by
    intro o
    obtain ⟨o1, o2⟩ := o
    rcases hK : key q with ⟨k1, k2⟩
    simp only [Prod.mk.injEq]
    omega
  rw [List.map_congr_left (fun o _ => if_congr (h1 o) rfl rfl)]
  exact sum_ite_eq_mem gridOffsets gridOffsets_nodup _ _

theorem floor_diff_le_one (u v : ℝ) (h : |u - v| < 1) :
    -1 ≤ ⌊u⌋ - ⌊v⌋ ∧ ⌊u⌋ - ⌊v⌋ ≤ 1 := by
  rw [abs_lt] at h
  constructor
  · have h1 : ⌊v⌋ ≤ ⌊u + 1⌋ := Int.floor_le_floor (by linarith)
    rw [show u + 1 = u + ((1 : ℤ) : ℝ) by push_cast; ring, Int.floor_add_int] at h1
    omega
  · have h1 : ⌊u⌋ ≤ ⌊v + 1⌋ := Int.floor_le_floor (by linarith)
    rw [show v + 1 = v + ((1 : ℤ) : ℝ) by push_cast; ring, Int.floor_add_int] at h1
    omega

theorem distance_eq_sqrt_distanceSquared (a b : Vec) :
    distance a b = Real.sqrt (distanceSquared a b) := rfl

/-- Particles within the smoothing radius of each other always lie in the
3×3 cell neighborhood — the uniform grid misses no neighbor. -/
theorem cell_mem_of_dist_lt (s : ℝ) (a b : Vec)
    (h : Real.sqrt (distanceSquared a b) < s) :
    ((cellOf s b).1 - (cellOf s a).1, (cellOf s b).2 - (cellOf s a).2) ∈ gridOffsets := by
  have hd0 : 0 ≤ Real.sqrt (distanceSquared a b) := Real.sqrt_nonneg _
  have hs : 0 < s := lt_of_le_of_lt hd0 h
  have hx : |b.x - a.x| < s := by
    have h1 : Real.sqrt ((b.x - a.x) ^ 2) ≤ Real.sqrt (distanceSquared a b) := by
      apply Real.sqrt_le_sqrt
      unfold distanceSquared
      nlinarith [mul_self_nonneg (b.y - a.y)]
    rw [Real.sqrt_sq_eq_abs] at h1
    linarith
  have hy : |b.y - a.y| < s := by
    have h1 : Real.sqrt ((b.y - a.y) ^ 2) ≤ Real.sqrt (distanceSquared a b) := by
      apply Real.sqrt_le_sqrt
      unfold distanceSquared
      nlinarith [mul_self_nonneg (b.x - a.x)]
    rw [Real.sqrt_sq_eq_abs] at h1
    linarith
  have hxf : -1 ≤ ⌊b.x / s⌋ - ⌊a.x / s⌋ ∧ ⌊b.x / s⌋ - ⌊a.x / s⌋ ≤ 1 := by
    apply floor_diff_le_one
    rw [div_sub_div_same, abs_div, abs_of_pos hs]
    exact (div_lt_one hs).mpr hx
  have hyf : -1 ≤ ⌊b.y / s⌋ - ⌊a.y / s⌋ ∧ ⌊b.y / s⌋ - ⌊a.y / s⌋ ≤ 1 := by
    apply floor_diff_le_one
    rw [div_sub_div_same, abs_div, abs_of_pos hs]
    exact (div_lt_one hs).mpr hy
  rw [mem_gridOffsets_iff]
  unfold cellOf
  exact ⟨hxf.1, hxf.2, hyf.1, hyf.2⟩

/-- The grid is transparent for the density pass: the bucketed double loop
computes exactly the radius-filtered sum over all particles. -/
theorem densityAt_eq (ps : List FluidParticle) (s : ℝ) (p : FluidParticle) :
    densityAt ps s p = (ps.map (fun q =>
      if Real.sqrt (distanceSquared p.position q.position) < s
      then q.mass * (1 - Real.sqrt (distanceSquared p.position q.position) / s)
      else 0)).sum := by
  unfold densityAt
  rw [grid_sum_eq ps (fun q => cellOf s q.position) (cellOf s p.position)]
  refine congrArg List.sum (List.map_congr_left ?_)
  intro q _
  by_cases hq : Real.sqrt (distanceSquared p.position q.position) < s
  · rw [if_pos (cell_mem_of_dist_lt s p.position q.position hq)]
  · simp [hq]

/-- The grid is transparent for the force pass as well. -/
theorem forceAt_eq (ps : List FluidParticle) (cfg : FluidConfig) (i : ℕ)
    (p : FluidParticle) :
    forceAt ps cfg i p = (ps.enum.map (fun jq =>
      if jq.1 = i then 0
      else if distance p.position jq.2.position < cfg.smoothingRadius
        then pairForce cfg p jq.2 else 0)).sum := by
  unfold forceAt
  rw [grid_sum_eq ps.enum (fun jq => cellOf cfg.smoothingRadius jq.2.position)
    (cellOf cfg.smoothingRadius p.position)]
  refine congrArg List.sum (List.map_congr_left ?_)
  intro jq _
  by_cases hj : jq.1 = i
  · simp [hj]
  · by_cases hq : distance p.position jq.2.position < cfg.smoothingRadius
    · rw [if_pos, if_neg hj, if_pos hq]
      apply cell_mem_of_dist_lt
      rw [← distance_eq_sqrt_distanceSquared]
      exact hq
    · simp [hj, hq]

theorem boidsForce_length (bs : List Boid) (rules : BoidRules) :
    (boidsForce bs rules).length = bs.length := by
  simp [boidsForce]

theorem boidsStep_count (rules : BoidRules) (i : ℕ) (boid : Boid)
    (acc : Vec × Vec × Vec × ℕ) (jo : ℕ × Boid)
    (h : jo.1 = i ∨ rules.alignmentRadius ≤ Real.sqrt (distanceSquared boid.position jo.2.position)) :
    (boidsStep rules i boid acc jo).2.2.2 = acc.2.2.2 := by
  unfold boidsStep
  rcases h with h | h
  · rw [if_pos h]
  · by_cases hj : jo.1 = i
    · rw [if_pos hj]
    · rw [if_neg hj, if_neg (not_lt.mpr h)]
      split <;> rfl

theorem boidsFold_count (rules : BoidRules) (i : ℕ) (boid : Boid)
    (l : List (ℕ × Boid)) (acc : Vec × Vec × Vec × ℕ)
    (h : ∀ jo ∈ l, jo.1 = i ∨
      rules.alignmentRadius ≤ Real.sqrt (distanceSquared boid.position jo.2.position)) :
    (l.foldl (boidsStep rules i boid) acc).2.2.2 = acc.2.2.2 := by
  induction l generalizing acc with
  | nil => rfl
  | cons jo l ih =>
      rw [List.foldl_cons, ih _ (fun x hx => h x (List.mem_cons_of_mem jo hx)),
        boidsStep_count rules i boid acc jo (h jo (List.mem_cons_self jo l))]

theorem boidsCombine_of_count_zero (rules : BoidRules) (boid : Boid)
    (st : Vec × Vec × Vec × ℕ) (h : st.2.2.2 = 0) :
    boidsCombine rules boid st = vzero := by
  simp only [boidsCombine, h]
  rw [if_neg (lt_irrefl 0)]
  by_cases hm : 0 < rules.maxSpeed
  · rw [if_pos hm]
    have hspeed : Real.sqrt (vzero.x * vzero.x + vzero.y * vzero.y) = 0 := by
      simp [vzero]
    rw [hspeed, if_neg (by linarith)]
  · rw [if_neg hm]

/-- C10: if no other boid lies strictly within `alignmentRadius` of boid `i`,
its returned flocking force is exactly the zero vector — even when other
boids lie within `separationRadius`, since the separation accumulator is
discarded when the alignment-radius neighbor count is zero. -/
theorem boids_zero_force_of_no_alignment_neighbors (bs : List Boid) (rules : BoidRules)
    (i : ℕ) (hi : i < bs.length)
    (hno : ∀ jo ∈ bs.enum, jo.1 ≠ i →
      rules.alignmentRadius ≤
        Real.sqrt (distanceSquared (bs.get ⟨i, hi⟩).position jo.2.position)) :
    (boidsForce bs rules).get ⟨i, by rw [boidsForce_length]; exact hi⟩ = vzero := by
  unfold boidsForce
  rw [List.get_map]
  rw [List.get_enum]
  apply boidsCombine_of_count_zero
  apply boidsFold_count
  intro jo hjo
  by_cases hj : jo.1 = i
  · exact Or.inl hj
  · exact Or.inr (hno jo hjo hj)

/-- C10 witness: two boids 100 apart, `separationRadius = 200` (so the other
boid is inside the separation radius) but `alignmentRadius = 50`: the force
on boid 0 is the zero vector. -/
theorem boids_zero_force_of_no_alignment_neighbors_witness :
    (boidsForce [⟨⟨0, 0⟩, ⟨1, 0⟩, Option.none⟩, ⟨⟨100, 0⟩, ⟨0, 1⟩, Option.none⟩]
      { separationRadius := 200, alignmentRadius := 50, cohesionRadius := 50,
        separationWeight := 1, alignmentWeight := 1, cohesionWeight := 1,
        maxSpeed := 10 }).get ⟨0, by rw [boidsForce_length]; norm_num⟩ = vzero := by
  apply boids_zero_force_of_no_alignment_neighbors
    [⟨⟨0, 0⟩, ⟨1, 0⟩, Option.none⟩, ⟨⟨100, 0⟩, ⟨0, 1⟩, Option.none⟩]
    { separationRadius := 200, alignmentRadius := 50, cohesionRadius := 50,
      separationWeight := 1, alignmentWeight := 1, cohesionWeight := 1, maxSpeed := 10 }
    0 (by norm_num)
  intro jo hjo hj
  have henum : List.enum
      [(⟨⟨0, 0⟩, ⟨1, 0⟩, Option.none⟩ : Boid), ⟨⟨100, 0⟩, ⟨0, 1⟩, Option.none⟩]
      = [(0, ⟨⟨0, 0⟩, ⟨1, 0⟩, Option.none⟩), (1, ⟨⟨100, 0⟩, ⟨0, 1⟩, Option.none⟩)] := rfl
  rw [henum] at hjo
  rcases List.mem_cons.mp hjo with h | h
  · exact absurd (by rw [h]) hj
  · rcases List.mem_cons.mp h with h2 | h2
    · subst h2
      show (50 : ℝ) ≤ Real.sqrt (distanceSquared (⟨0, 0⟩ : Vec) (⟨100, 0⟩ : Vec))
      rw [show distanceSquared (⟨0, 0⟩ : Vec) (⟨100, 0⟩ : Vec) = 100 ^ 2 by
          simp [distanceSquared]; norm_num]
      rw [Real.sqrt_sq (by norm_num : (0 : ℝ) ≤ 100)]
      norm_num
    · exact absurd h2 (List.not_mem_nil jo)

/-- C5 counterexample: `fluid` mutates the `density` field of its input
particles — a single particle with `density = 0` and mass 1 has density 1
after the call. -/
theorem fluid_mutates_density :
    (fluid [⟨⟨0, 0⟩, ⟨0, 0⟩, 0, 0, 1⟩] {}).1.map FluidParticle.density ≠
      [(⟨⟨0, 0⟩, ⟨0, 0⟩, 0, 0, 1⟩ : FluidParticle)].map FluidParticle.density := by
  have hsq : distanceSquared (⟨0, 0⟩ : Vec) (⟨0, 0⟩ : Vec) = 0 := by
    simp [distanceSquared]
  have hd : densityAt [⟨⟨0, 0⟩, ⟨0, 0⟩, 0, 0, 1⟩] (30 : ℝ)
      ⟨⟨0, 0⟩, ⟨0, 0⟩, 0, 0, 1⟩ = 1 := by
    rw [densityAt_eq]
    show (if Real.sqrt (distanceSquared (⟨0, 0⟩ : Vec) (⟨0, 0⟩ : Vec)) < (30 : ℝ)
      then (1 : ℝ) * (1 - Real.sqrt (distanceSquared (⟨0, 0⟩ : Vec) (⟨0, 0⟩ : Vec)) / 30)
      else 0) + 0 = 1
    rw [hsq, Real.sqrt_zero, if_pos (by norm_num : (0 : ℝ) < 30)]
    norm_num
  simp only [fluid, fluidDensities, List.map_cons, List.map_nil]
  intro h
  injection h with h1 h2
  exact one_ne_zero (hd ▸ h1)

/-- C5 (amended): the force-field functions never touch position, velocity
or mass — `fluid` rewrites only the derived `density`/`pressure` cache on
its input particles and `boids` reads only — and both return a force array
parallel to their input. -/
theorem fluid_boids_field_effects (ps : List FluidParticle) (cfg : FluidConfig)
    (bs : List Boid) (rules : BoidRules) :
    (fluid ps cfg).1.map FluidParticle.position = ps.map FluidParticle.position ∧
    (fluid ps cfg).1.map FluidParticle.velocity = ps.map FluidParticle.velocity ∧
    (fluid ps cfg).1.map FluidParticle.mass = ps.map FluidParticle.mass ∧
    (fluid ps cfg).2.length = ps.length ∧
    (boidsForce bs rules).length = bs.length := by
  refine ⟨?_, ?_, ?_, ?_, boidsForce_length bs rules⟩ <;>
    simp [fluid, fluidDensities, List.map_map, Function.comp]

theorem distance_comm (a b : Vec) : distance a b = distance b a := by
  unfold distance
  congr 1
  ring

theorem sub_antisymm (a b : Vec) : sub a b = vneg (sub b a) := by
  simp only [sub, vneg, Vec.ext_iff2]
  constructor <;> ring

theorem vlength_vneg (v : Vec) : vlength (vneg v) = vlength v := by
  unfold vlength vneg
  simp only
  congr 1
  ring

theorem normalize_vneg (v : Vec) : normalize (vneg v) = vneg (normalize v) := by
  unfold normalize
  rw [vlength_vneg]
  split
  · simp [vneg, vzero]
  · simp only [vneg, scale, Vec.ext_iff2]
    constructor <;> ring

theorem vneg_vzero : vneg vzero = vzero := by
  simp [vneg, vzero]

/-- The pairwise fluid force is antisymmetric: the force of `q` on `p` is
the exact negation of the force of `p` on `q`. -/
theorem pairForce_antisymm (cfg : FluidConfig) (p q : FluidParticle) :
    pairForce cfg p q = vneg (pairForce cfg q p) := by
  unfold pairForce
  rw [distance_comm q.position p.position,
    sub_antisymm q.position p.position, sub_antisymm q.velocity p.velocity,
    normalize_vneg]
  simp only [vneg, scale, add, Vec.ext_iff2]
  constructor <;> ring

/-- C7: for a two-particle system (densities and pressures computed from
both particles by the first pass), the two returned forces are exact
negations of each other — Newton's third law. -/
theorem fluid_two_particles_newton3 (a b : FluidParticle) (cfg : FluidConfig)
    (hma : 0 < a.mass) (hmb : 0 < b.mass) :
    (fluid [a, b] cfg).2.length = 2 ∧
    (fluid [a, b] cfg).2.getD 0 vzero = vneg ((fluid [a, b] cfg).2.getD 1 vzero) := by
  suffices h : ∃ f : Vec, (fluid [a, b] cfg).2 = [f, vneg f] by
    obtain ⟨f, hf⟩ := h
    rw [hf]
    refine ⟨rfl, ?_⟩
    show f = vneg (vneg f)
    cases f
    simp [vneg]
  obtain ⟨x, y, hxy⟩ : ∃ x y, fluidDensities [a, b] cfg = [x, y] := ⟨_, _, rfl⟩
  have h2 : (fluid [a, b] cfg).2 = [x, y].enum.map (fun ip => forceAt [x, y] cfg ip.1 ip.2) := by
    simp only [fluid]
    rw [hxy]
  rw [h2]
  have henum : ([x, y] : List FluidParticle).enum = [(0, x), (1, y)] := rfl
  rw [henum, List.map_cons, List.map_cons, List.map_nil]
  rw [forceAt_eq, forceAt_eq, henum]
  simp only [List.map_cons, List.map_nil, List.sum_cons, List.sum_nil]
  rw [if_pos trivial, if_neg (by norm_num : ¬(1 : ℕ) = 0),
    if_neg (by norm_num : ¬(0 : ℕ) = 1), if_pos trivial]
  rw [distance_comm y.position x.position]
  simp only [zero_add, add_zero]
  by_cases hlt : distance x.position y.position < cfg.smoothingRadius
  · refine ⟨pairForce cfg x y, ?_⟩
    rw [if_pos hlt, if_pos hlt, pairForce_antisymm cfg y x]
  · refine ⟨vzero, ?_⟩
    rw [if_neg hlt, if_neg hlt, vzero_def, vneg_vzero]

/-- C7 witness: two unit-mass particles one unit apart. -/
theorem fluid_two_particles_newton3_witness :
    (fluid [⟨⟨0, 0⟩, ⟨0, 0⟩, 0, 0, 1⟩, ⟨⟨1, 0⟩, ⟨0, 0⟩, 0, 0, 1⟩] {}).2.length = 2 ∧
    (fluid [⟨⟨0, 0⟩, ⟨0, 0⟩, 0, 0, 1⟩, ⟨⟨1, 0⟩, ⟨0, 0⟩, 0, 0, 1⟩] {}).2.getD 0 vzero
      = vneg ((fluid [⟨⟨0, 0⟩, ⟨0, 0⟩, 0, 0, 1⟩, ⟨⟨1, 0⟩, ⟨0, 0⟩, 0, 0, 1⟩] {}).2.getD 1 vzero) :=
  fluid_two_particles_newton3 ⟨⟨0, 0⟩, ⟨0, 0⟩, 0, 0, 1⟩ ⟨⟨1, 0⟩, ⟨0, 0⟩, 0, 0, 1⟩ {}
    (by norm_num) (by norm_num)

theorem distanceSquared_self (a : Vec) : distanceSquared a a = 0 := by
  simp [distanceSquared]

/-- C9: every particle's density includes its own mass (the particle is not
excluded from the density sum), so with positive masses every density is
positive and the density products dividing the pressure and viscosity terms
are nonzero. -/
theorem fluid_density_includes_self (ps : List FluidParticle) (cfg : FluidConfig)
    (hs : 0 < cfg.smoothingRadius) (hm : ∀ q ∈ ps, 0 < q.mass) :
    (∀ p ∈ ps, p.mass ≤ densityAt ps cfg.smoothingRadius p) ∧
    (∀ q ∈ (fluid ps cfg).1, 0 < q.density) ∧
    (∀ q ∈ (fluid ps cfg).1, ∀ r ∈ (fluid ps cfg).1,
      2 * q.density * r.density ≠ 0 ∧ q.density * r.density ≠ 0) := by
  have hA : ∀ p ∈ ps, p.mass ≤ densityAt ps cfg.smoothingRadius p := by
    intro p hp
    rw [densityAt_eq]
    have hterm : (if Real.sqrt (distanceSquared p.position p.position)
        < cfg.smoothingRadius
        then p.mass * (1 - Real.sqrt (distanceSquared p.position p.position)
          / cfg.smoothingRadius)
        else 0) = p.mass := by
      rw [distanceSquared_self, Real.sqrt_zero, if_pos hs]
      norm_num
    refine le_trans (le_of_eq hterm.symm) (List.single_le_sum ?_ _
      (List.mem_map_of_mem _ hp))
    intro z hz
    obtain ⟨q, hq, rfl⟩ := List.mem_map.mp hz
    by_cases hd : Real.sqrt (distanceSquared p.position q.position)
      < cfg.smoothingRadius
    · rw [if_pos hd]
      have h1 : Real.sqrt (distanceSquared p.position q.position)
          / cfg.smoothingRadius < 1 := (div_lt_one hs).mpr hd
      have h2 := le_of_lt (hm q hq)
      nlinarith
    · rw [if_neg hd]
  have hB : ∀ q ∈ (fluid ps cfg).1, 0 < q.density := by
    intro q hq
    simp only [fluid, fluidDensities, List.mem_map] at hq
    obtain ⟨p, hp, rfl⟩ := hq
    exact lt_of_lt_of_le (hm p hp) (hA p hp)
  refine ⟨hA, hB, ?_⟩
  intro q hq r hr
  have h1 := hB q hq
  have h2 := hB r hr
  constructor
  · exact ne_of_gt (by nlinarith)
  · exact ne_of_gt (mul_pos h1 h2)

/-- C9 witness: a single unit-mass particle at the origin with the default
configuration has density at least its mass. -/
theorem fluid_density_includes_self_witness :
    (1 : ℝ) ≤ densityAt [⟨⟨0, 0⟩, ⟨0, 0⟩, 0, 0, 1⟩] ({} : FluidConfig).smoothingRadius
      ⟨⟨0, 0⟩, ⟨0, 0⟩, 0, 0, 1⟩ := by
  have h := (fluid_density_includes_self [⟨⟨0, 0⟩, ⟨0, 0⟩, 0, 0, 1⟩] {}
    (by norm_num) (by
      intro q hq
      rw [List.mem_singleton] at hq
      subst hq
      norm_num)).1 ⟨⟨0, 0⟩, ⟨0, 0⟩, 0, 0, 1⟩ (List.mem_singleton.mpr rfl)
  simpa using h

end

end MathUtils
